import Mathlib

/-
Verification development for `Scripts/check-cask-updates.py`.

The script's core logic is embedded shallowly:

* `compare_versions` — the heuristic version comparator (lines 176-215).
  Python strings are modelled as Lean `String`/`List Char`; Python's
  `str.split()` (whitespace split), `str.split('.')`, and `int(...)`
  parsing (ASCII digits, optional sign, underscores between digits,
  surrounding whitespace) are embedded as executable functions.
  A Python exception that escapes the function is modelled by
  `Except.error ()`; the `TypeError` raised by comparing an `int` with a
  `str` inside `v1 < v2` is caught by the function's own `try`, so it
  surfaces as the caught-exception result `None`.
* `get_cask_info` — the per-token catalog detail fetcher (lines 53-71),
  as a function of the abstracted subprocess/JSON outcome.
* `build_cask_database` — the fold of fetch results into the
  app-name index (lines 91-138), over the completion-order result list.
* `match_apps_to_casks` (lines 218-251) and `main` (lines 254-289).
-/

set_option autoImplicit false

deriving instance DecidableEq for Except

namespace CaskUpdates

/-- ASCII whitespace as recognised by Python's `str.split()` / `str.strip()`
(the embedding restricts Python's Unicode whitespace to ASCII). -/
def isPyWs (c : Char) : Bool :=
  c = ' ' || c = '\t' || c = '\n' || c = '\r' || c = '\x0b' || c = '\x0c'

/-- Accumulator-style worker for `pySplitWs`: `acc` holds the current chunk
reversed. -/
def splitWsAux (acc : List Char) : List Char → List (List Char)
  | [] => if acc = [] then [] else [acc.reverse]
  | c :: rest =>
    if isPyWs c then
      if acc = [] then splitWsAux [] rest else acc.reverse :: splitWsAux [] rest
    else
      splitWsAux (c :: acc) rest

/-- Python `s.split()` with no argument: split on runs of whitespace,
discarding empty chunks. -/
def pySplitWs (s : List Char) : List (List Char) :=
  splitWsAux [] s

/-- Python `s.strip()` restricted to what `int(...)` needs: drop leading and
trailing whitespace. -/
def stripPyWs (cs : List Char) : List Char :=
  ((cs.dropWhile isPyWs).reverse.dropWhile isPyWs).reverse

/-- Digit-run scanner for Python `int(...)`: after an initial digit, digits
may be separated by single underscores; `afterUnd` records that the previous
character was an underscore (which must be followed by a digit). -/
def digitsRun (acc : Nat) (afterUnd : Bool) : List Char → Option Nat
  | [] => if afterUnd then none else some acc
  | c :: rest =>
    if c.isDigit then digitsRun (acc * 10 + (c.toNat - 48)) false rest
    else if c = '_' then
      if afterUnd then none else digitsRun acc true rest
    else none

/-- Digit body of a Python integer literal: one or more ASCII digits with
optional single underscores between digits. -/
def pyDigits : List Char → Option Nat
  | [] => none
  | c :: rest => if c.isDigit then digitsRun (c.toNat - 48) false rest else none

/-- Python `int(s)` on a string: optional surrounding whitespace, optional
sign, digit run; `none` models the raised `ValueError`. -/
def pyInt (cs : List Char) : Option Int :=
  match stripPyWs cs with
  | '+' :: rest => (pyDigits rest).map (fun n => (n : Int))
  | '-' :: rest => (pyDigits rest).map (fun n => -(n : Int))
  | rest => (pyDigits rest).map (fun n => (n : Int))

/-- Accumulator-style worker for `splitDot`. -/
def splitDotAux (acc : List Char) : List Char → List (List Char)
  | [] => [acc.reverse]
  | c :: rest =>
    if c = '.' then acc.reverse :: splitDotAux [] rest
    else splitDotAux (c :: acc) rest

/-- Python `s.split('.')`: split at every dot, keeping empty chunks
(`"".split('.') == [""]`). -/
def splitDot (s : List Char) : List (List Char) :=
  splitDotAux [] s

/-- One component of a parsed version: a Python `int` or a Python `str`
(the two element shapes produced by `parse_version`). -/
inductive Part where
  | int (n : Int)
  | str (s : List Char)
  deriving DecidableEq, Repr

/-- Python `==` between two version parts: values of different types are
never equal, never raising. -/
def pyEqPart : Part → Part → Bool
  | Part.int a, Part.int b => a = b
  | Part.str a, Part.str b => a = b
  | _, _ => false

/-- Code-point lexicographic order on Python strings (`str < str`). -/
def strLt : List Char → List Char → Bool
  | [], [] => false
  | [], _ :: _ => true
  | _ :: _, [] => false
  | a :: as1, b :: bs1 => if a = b then strLt as1 bs1 else a < b

/-- Python `<` between two version parts: `none` models the `TypeError`
raised when an `int` is compared with a `str`. -/
def pyLtPart : Part → Part → Option Bool
  | Part.int a, Part.int b => some (a < b)
  | Part.str a, Part.str b => some (strLt a b)
  | _, _ => none

/-- Python list `<`: walk the two lists while elements are `==`-equal; the
first unequal pair decides via `<` (possibly raising, i.e. `none`); if one
list is exhausted, the shorter list is smaller. -/
def pyListLt : List Part → List Part → Option Bool
  | [], [] => some false
  | [], _ :: _ => some true
  | _ :: _, [] => some false
  | a :: as1, b :: bs1 => if pyEqPart a b then pyListLt as1 bs1 else pyLtPart a b

/-- The script's cleaning step (lines 189-190):
`installed.split()[0] if ' ' in installed else installed`.
`none` models the `IndexError` raised by `[..][0]` when `split()` returns an
empty list; note this expression sits outside the function's `try` block. -/
def cleanVersion (s : List Char) : Option (List Char) :=
  if ' ' ∈ s then (pySplitWs s).head? else some s

/-- `parse_version` (lines 192-201): split on dots; each part becomes its
`int(...)` value when that parses, otherwise stays a string. -/
def parse_version (v : List Char) : List Part :=
  (splitDot v).map (fun p =>
    match pyInt p with
    | some n => Part.int n
    | none => Part.str p)

/-- The padding step (lines 207-210): right-pad `v` with integer zeros up to
the length of the longer of `v` and `w`. -/
def padZeros (v w : List Part) : List Part :=
  v ++ List.replicate (max v.length w.length - v.length) (Part.int 0)

/-- `compare_versions` (lines 176-215). `Except.error ()` models an
exception escaping the function (only the cleaning step can raise outside
the `try`); `Except.ok none` is the Python return value `None`. -/
def compare_versions (installed available : String) : Except Unit (Option Bool) :=
  if installed = "" ∨ available = "" then Except.ok none
  else
    match cleanVersion installed.toList, cleanVersion available.toList with
    | some ic, some ac =>
        Except.ok (pyListLt (padZeros (parse_version ic) (parse_version ac))
                            (padZeros (parse_version ac) (parse_version ic)))
    | _, _ => Except.error ()

/-- A cask artifact: only artifacts that are dicts carrying an `app` key
contribute app names; everything else (`zap`, `uninstall`, non-dict
entries, ...) is `other`. -/
inductive Artifact where
  | app (names : List String)
  | other
  deriving DecidableEq, Repr

/-- Structured metadata of one cask, as consumed by the script: `token`,
`version`, the ordered `artifacts` list, and the truthiness of the
`installed` and `outdated` fields. -/
structure CaskRecord where
  token : String
  version : String
  artifacts : List Artifact
  installed : Bool
  outdated : Bool
  deriving DecidableEq, Repr

/-- The parsed JSON body returned by `brew info --cask <token> --json=v2`:
`casks` is the value under the `casks` key (`none` when the key is absent). -/
structure BrewInfoData where
  casks : Option (List CaskRecord)
  deriving DecidableEq, Repr

/-- Outcome of the `subprocess.run` + `json.loads` steps inside
`get_cask_info`, abstracted at the collaborator boundary: the invocation
times out, raises some other exception, or completes with a return code and
a parse result (`none` models `json.JSONDecodeError`; a successfully parsed
non-dict body, whose `.get` would raise, is folded into `fault`). -/
inductive FetchOutcome where
  | timeout
  | fault
  | completed (returncode : Int) (body : Option BrewInfoData)
  deriving DecidableEq, Repr

/-- The body of `get_cask_info`'s `try` block (lines 55-67):
`Except.error ()` is an exception reaching the handler. -/
def get_cask_info_try (o : FetchOutcome) : Except Unit (Option CaskRecord) :=
  match o with
  | FetchOutcome.timeout => Except.error ()
  | FetchOutcome.fault => Except.error ()
  | FetchOutcome.completed rc body =>
    if rc = 0 then
      match body with
      | none => Except.error ()
      | some data =>
        match data.casks with
        | some (c :: _) => Except.ok (some c)
        | _ => Except.ok none
    else Except.ok none

/-- `get_cask_info` (lines 53-71): the catch-all `except ...: pass` turns any
raised exception into the fall-through `return None`. -/
def get_cask_info (o : FetchOutcome) : Option CaskRecord :=
  match get_cask_info_try o with
  | Except.error _ => none
  | Except.ok v => v

/-- `extract_app_names_from_cask` (lines 74-88): collect, in artifact order,
the app-name lists of all artifacts carrying an `app` key. -/
def extract_app_names_from_cask (cask_data : CaskRecord) : List String :=
  cask_data.artifacts.flatMap (fun a =>
    match a with
    | Artifact.app names => names
    | Artifact.other => [])

/-- The app-name index: association list from app name to cask record, in
insertion order; lookup takes the first (and only) binding of a key. -/
abbrev CaskDB := List (String × CaskRecord)

/-- First-binding lookup in the index (Python `dict` access / `.get`). -/
def lookupName : List (String × CaskRecord) → String → Option CaskRecord
  | [], _ => none
  | (k, v) :: rest, name => if k = name then some v else lookupName rest name

/-- Lines 124-127: `if app_name not in app_to_cask: app_to_cask[app_name] = cask_data`. -/
def insertIfAbsent (db : List (String × CaskRecord)) (name : String)
    (cask_data : CaskRecord) : List (String × CaskRecord) :=
  match lookupName db name with
  | some _ => db
  | none => db ++ [(name, cask_data)]

/-- The per-completion outcome observed by the indexer loop at
`future.result()`: the task raised (`Except.error`), or it returned
`None` / a record. (`get_cask_info` itself never raises, but the loop's
`try/except` is defensive; the error case models any raising task.) -/
abbrev FetchResult := Except Unit (Option CaskRecord)

/-- The body of the `as_completed` loop (lines 115-131): a raised task or a
`None` result leaves the index unchanged; a record inserts each of its app
names if absent. -/
def processFetch (db : List (String × CaskRecord)) (r : FetchResult) :
    List (String × CaskRecord) :=
  match r with
  | Except.error _ => db
  | Except.ok none => db
  | Except.ok (some cask_data) =>
    (extract_app_names_from_cask cask_data).foldl
      (fun d name => insertIfAbsent d name cask_data) db

/-- `build_cask_database` (lines 91-138) as a function of the per-token
fetch results in completion order: fold them into the index starting from
the empty dict. -/
def build_cask_database (results : List FetchResult) : List (String × CaskRecord) :=
  results.foldl processFetch []

/-- The cask records of the fetches that succeeded with a record, in
completion order. -/
def successfulRecords (results : List FetchResult) : List CaskRecord :=
  results.filterMap (fun r =>
    match r with
    | Except.ok (some c) => some c
    | _ => none)

/-- Specification-side characterisation of first-writer-wins: the first
successfully fetched record, in completion order, that declares `name` as
an app artifact. -/
def firstDeclaring : List FetchResult → String → Option CaskRecord
  | [], _ => none
  | r :: rest, name =>
    match r with
    | Except.ok (some c) =>
      if name ∈ extract_app_names_from_cask c then some c
      else firstDeclaring rest name
    | _ => firstDeclaring rest name

/-- Total app-name count over the successful fetches. -/
def totalAppNames (results : List FetchResult) : Nat :=
  ((successfulRecords results).map
    (fun c => (extract_app_names_from_cask c).length)).sum

/-- One row of the osquery inventory: `name`, `path`, `bundle_identifier`,
`bundle_short_version` (missing JSON fields are the `.get(..., '')`
defaults, so fields are total strings). -/
structure InstalledApp where
  name : String
  path : String
  bundle_identifier : String
  bundle_short_version : String
  deriving DecidableEq, Repr

/-- One output record assembled at lines 240-249. -/
structure MatchRecord where
  app_name : String
  bundle_id : String
  installed_version : String
  cask_token : String
  cask_version : String
  update_available : Option Bool
  cask_installed : Bool
  outdated : Bool
  deriving DecidableEq, Repr

/-- The record literal of lines 240-249 for one matched app. -/
def mkMatchRecord (app : InstalledApp) (cask_data : CaskRecord)
    (update_available : Option Bool) : MatchRecord :=
  { app_name := app.name
    bundle_id := app.bundle_identifier
    installed_version := app.bundle_short_version
    cask_token := cask_data.token
    cask_version := cask_data.version
    update_available := update_available
    cask_installed := cask_data.installed
    outdated := cask_data.outdated }

/-- `match_apps_to_casks` (lines 218-251): left-to-right loop over the apps;
an app absent from the index is skipped; otherwise `compare_versions` runs
(its uncaught exception, if any, propagates out of the loop) and a record is
appended. -/
def match_apps_to_casks : List InstalledApp → List (String × CaskRecord) →
    Except Unit (List MatchRecord)
  | [], _ => Except.ok []
  | app :: rest, cask_db =>
    match lookupName cask_db app.name with
    | none => match_apps_to_casks rest cask_db
    | some cask_data =>
      match compare_versions app.bundle_short_version cask_data.version with
      | Except.error e => Except.error e
      | Except.ok update_available =>
        match match_apps_to_casks rest cask_db with
        | Except.error e => Except.error e
        | Except.ok results =>
          Except.ok (mkMatchRecord app cask_data update_available :: results)

/-- `main` (lines 254-289) as a function of the collaborator outcomes: the
completion-order fetch results (which determine the index) and the
inventory rows. The result is the returned exit code paired with the list
printed to stdout as a JSON array (`none` on the failure paths, where
nothing is printed to stdout); `Except.error ()` models an exception
propagating out of `main` (the interpreter then aborts with a traceback
instead of reaching `return 0`). -/
def main (results : List FetchResult) (apps : List InstalledApp) :
    Except Unit (Int × Option (List MatchRecord)) :=
  let cask_db := build_cask_database results
  if cask_db = [] then Except.ok (1, none)
  else if apps = [] then Except.ok (1, none)
  else
    match match_apps_to_casks apps cask_db with
    | Except.error e => Except.error e
    | Except.ok results1 => Except.ok (0, some results1)

/-- Specification-side predicate: the two part sequences first differ (in
the sense of Python `==`) at a position where one part is an `int` and the
other a `str`. -/
def mixedAtFirstDiff : List Part → List Part → Bool
  | a :: as1, b :: bs1 =>
    if pyEqPart a b then mixedAtFirstDiff as1 bs1
    else
      match a, b with
      | Part.int _, Part.str _ => true
      | Part.str _, Part.int _ => true
      | _, _ => false
  | _, _ => false

theorem pyEqPart_refl (a : Part) : pyEqPart a a = true := by
  cases a <;> simp [pyEqPart]

theorem pyListLt_self (v : List Part) : pyListLt v v = some false := by
  induction v with
  | nil => rfl
  | cons a as1 ih => simp [pyListLt, pyEqPart_refl, ih]

theorem mixedAtFirstDiff_pyListLt {v w : List Part}
    (h : mixedAtFirstDiff v w = true) : pyListLt v w = none := by
  induction v generalizing w with
  | nil => cases w <;> simp [mixedAtFirstDiff] at h
  | cons a as1 ih =>
    cases w with
    | nil => simp [mixedAtFirstDiff] at h
    | cons b bs1 =>
      by_cases he : pyEqPart a b = true
      · simp [mixedAtFirstDiff, he] at h
        simp [pyListLt, he, ih h]
      · simp [mixedAtFirstDiff, he] at h
        cases a <;> cases b <;> simp_all [pyEqPart, pyLtPart, pyListLt]

/-- `Option.orElse` specialised to cask records, match-style for easy case
analysis. -/
def optOr : Option CaskRecord → Option CaskRecord → Option CaskRecord
  | some v, _ => some v
  | none, o => o

theorem optOr_none_right (o : Option CaskRecord) : optOr o none = o := by
  cases o <;> rfl

theorem optOr_assoc (a b c : Option CaskRecord) :
    optOr (optOr a b) c = optOr a (optOr b c) := by
  cases a <;> rfl

theorem lookupName_append (l1 l2 : List (String × CaskRecord)) (k : String) :
    lookupName (l1 ++ l2) k = optOr (lookupName l1 k) (lookupName l2 k) := by
  induction l1 with
  | nil => rfl
  | cons p rest ih =>
    obtain ⟨a, v⟩ := p
    by_cases h : a = k <;> simp [lookupName, h, ih, optOr]

theorem insertFold_lookup (names : List String) (cask_data : CaskRecord)
    (db : List (String × CaskRecord)) (k : String) :
    lookupName (names.foldl (fun d name => insertIfAbsent d name cask_data) db) k
      = optOr (lookupName db k) (if k ∈ names then some cask_data else none) := by
  induction names generalizing db with
  | nil => simp [optOr_none_right]
  | cons n rest ih =>
    simp only [List.foldl_cons]
    rw [ih]
    unfold insertIfAbsent
    cases hn : lookupName db n with
    | some v =>
      by_cases hk : k = n
      · subst hk
        simp [hn, optOr]
      · simp [List.mem_cons, hk]
    | none =>
      rw [lookupName_append]
      by_cases hk : k = n
      · subst hk
        simp [hn, lookupName, optOr]
      · have hnk : n ≠ k := fun h => hk h.symm
        have h1 : lookupName [(n, cask_data)] k = none := by
          simp [lookupName, hnk]
        rw [h1, optOr_none_right]
        simp [List.mem_cons, hk]

theorem buildFold_lookup (results : List FetchResult)
    (db : List (String × CaskRecord)) (k : String) :
    lookupName (results.foldl processFetch db) k
      = optOr (lookupName db k) (firstDeclaring results k) := by
  induction results generalizing db with
  | nil => simp [firstDeclaring, optOr_none_right]
  | cons r rest ih =>
    simp only [List.foldl_cons]
    rw [ih]
    cases r with
    | error e => rfl
    | ok o =>
      cases o with
      | none => rfl
      | some cask_data =>
        show optOr (lookupName (processFetch db (Except.ok (some cask_data))) k) _ = _
        unfold processFetch
        rw [insertFold_lookup, optOr_assoc]
        cases lookupName db k <;>
          by_cases hm : k ∈ extract_app_names_from_cask cask_data <;>
            simp [firstDeclaring, hm, optOr]

theorem successfulRecords_cons_error (e : Unit) (rest : List FetchResult) :
    successfulRecords (Except.error e :: rest) = successfulRecords rest := rfl

theorem successfulRecords_cons_none (rest : List FetchResult) :
    successfulRecords (Except.ok none :: rest) = successfulRecords rest := rfl

theorem successfulRecords_cons_some (c : CaskRecord) (rest : List FetchResult) :
    successfulRecords (Except.ok (some c) :: rest) = c :: successfulRecords rest := rfl

theorem totalAppNames_cons_error (e : Unit) (rest : List FetchResult) :
    totalAppNames (Except.error e :: rest) = totalAppNames rest := rfl

theorem totalAppNames_cons_none (rest : List FetchResult) :
    totalAppNames (Except.ok none :: rest) = totalAppNames rest := rfl

theorem totalAppNames_cons_some (c : CaskRecord) (rest : List FetchResult) :
    totalAppNames (Except.ok (some c) :: rest)
      = (extract_app_names_from_cask c).length + totalAppNames rest := by
  simp [totalAppNames, successfulRecords_cons_some]

theorem firstDeclaring_mem {results : List FetchResult} {k : String}
    {c : CaskRecord} (h : firstDeclaring results k = some c) :
    c ∈ successfulRecords results ∧ k ∈ extract_app_names_from_cask c := by
  induction results with
  | nil => simp [firstDeclaring] at h
  | cons r rest ih =>
    cases r with
    | error e =>
      rw [successfulRecords_cons_error]
      exact ih (by simpa [firstDeclaring] using h)
    | ok o =>
      cases o with
      | none =>
        rw [successfulRecords_cons_none]
        exact ih (by simpa [firstDeclaring] using h)
      | some c1 =>
        rw [successfulRecords_cons_some]
        by_cases hm : k ∈ extract_app_names_from_cask c1
        · have hc : c1 = c := by simpa [firstDeclaring, hm] using h
          subst hc
          exact ⟨List.mem_cons_self _ _, hm⟩
        · have h1 := ih (by simpa [firstDeclaring, hm] using h)
          exact ⟨List.mem_cons_of_mem _ h1.1, h1.2⟩

theorem insertFold_length (names : List String) (cask_data : CaskRecord)
    (db : List (String × CaskRecord)) :
    (names.foldl (fun d name => insertIfAbsent d name cask_data) db).length
      ≤ db.length + names.length := by
  induction names generalizing db with
  | nil => simp
  | cons n rest ih =>
    simp only [List.foldl_cons, List.length_cons]
    refine le_trans (ih _) ?_
    have h1 : (insertIfAbsent db n cask_data).length ≤ db.length + 1 := by
      unfold insertIfAbsent
      cases lookupName db n <;> simp
    omega

theorem buildFold_length (results : List FetchResult)
    (db : List (String × CaskRecord)) :
    (results.foldl processFetch db).length ≤ db.length + totalAppNames results := by
  induction results generalizing db with
  | nil => simp [totalAppNames, successfulRecords]
  | cons r rest ih =>
    simp only [List.foldl_cons]
    refine le_trans (ih _) ?_
    cases r with
    | error e =>
      rw [totalAppNames_cons_error]
      simp [processFetch]
    | ok o =>
      cases o with
      | none =>
        rw [totalAppNames_cons_none]
        simp [processFetch]
      | some cask_data =>
        rw [totalAppNames_cons_some]
        have h1 := insertFold_length (extract_app_names_from_cask cask_data) cask_data db
        simp only [processFetch]
        omega

theorem splitWsAux_headQ (t : List Char) (acc : List Char) (hacc : acc ≠ []) :
    (splitWsAux acc t).head?
      = some (acc.reverse ++ t.takeWhile (fun d => !isPyWs d)) := by
  induction t generalizing acc with
  | nil => simp [splitWsAux, hacc]
  | cons d t1 ih =>
    by_cases hd : isPyWs d
    · simp [splitWsAux, hd, hacc, List.takeWhile_cons]
    · simp only [splitWsAux, hd, if_false, Bool.false_eq_true]
      rw [ih (d :: acc) (by simp)]
      simp [List.takeWhile_cons, hd]

/-- Boolean success test on the comparator result (used to state that a
comparator call completes without an escaping exception). -/
def exceptIsOk : Except Unit (Option Bool) → Bool
  | Except.ok _ => true
  | Except.error _ => false

/-- The comparator call the matcher performs for `app` against `db`
(trivially successful when `app.name` is not a key of the index). -/
def compareForApp (db : List (String × CaskRecord)) (app : InstalledApp) :
    Except Unit (Option Bool) :=
  match lookupName db app.name with
  | none => Except.ok none
  | some cask_data => compare_versions app.bundle_short_version cask_data.version

/-- Fixture: a cask declaring the app name `Foo.app`. -/
def caskA : CaskRecord := ⟨"alpha", "1.0", [Artifact.app ["Foo.app"]], false, false⟩

/-- Fixture: a distinct cask declaring `Foo.app` and `Bar.app`. -/
def caskB : CaskRecord :=
  ⟨"beta", "2.0", [Artifact.app ["Foo.app", "Bar.app"], Artifact.other], true, false⟩

/-- Fixture: a completion-order result list with one raised task, one
`None` result, and two records that both declare `Foo.app`. -/
def resultsW : List FetchResult :=
  [Except.ok (some caskA), Except.error (), Except.ok none, Except.ok (some caskB)]

/-- Fixture: an installed app matched by `caskA` with an older version. -/
def appGood : InstalledApp := ⟨"Foo.app", "/Applications/Foo.app", "com.foo", "0.9"⟩

/-- Fixture: an installed app whose name is not in the index. -/
def appUnknown : InstalledApp := ⟨"Nope.app", "/Applications/Nope.app", "com.nope", "1.0"⟩

/-- Fixture: an installed app whose inventory version string is a single
space, which makes the comparator's cleaning step raise. -/
def appBad : InstalledApp := ⟨"Foo.app", "/Applications/Foo.app", "com.foo", " "⟩

/-- C1: the comparator returns `None` for empty inputs, but it is NOT total
on arbitrary strings: on an input that contains a space yet consists only of
whitespace (for example `" "`), the cleaning expression
`installed.split()[0]` raises an uncaught `IndexError`, because the cleaning
step sits outside the `try` block whose handler returns `None`. -/
theorem compare_versions_whitespace_crash :
    compare_versions "" "1.0" = Except.ok none
    ∧ compare_versions "1.0" "" = Except.ok none
    ∧ compare_versions " " "1.0" = Except.error () := by
  exact ⟨rfl, rfl, rfl⟩

/-- C2: first-writer-wins — for every completion-order result list, every
app name maps in the built index to exactly the first successfully fetched
record that declared it as an app artifact, and any record stored under a
name is one of the contributing records (never a merge). -/
theorem first_writer_wins :
    ∀ (results : List FetchResult) (name : String),
      lookupName (build_cask_database results) name = firstDeclaring results name
      ∧ (∀ c, lookupName (build_cask_database results) name = some c →
          c ∈ successfulRecords results ∧ name ∈ extract_app_names_from_cask c) := by
  intro results name
  have h1 : lookupName (build_cask_database results) name = firstDeclaring results name :=
    buildFold_lookup results [] name
  exact ⟨h1, fun c hc => firstDeclaring_mem (h1.symm.trans hc)⟩

/-- Witness for C2 on the fixture list: `Foo.app` is declared by both
`caskA` (first) and `caskB` (later), and the index holds `caskA`. -/
theorem first_writer_wins_witness :
    lookupName (build_cask_database resultsW) "Foo.app" = firstDeclaring resultsW "Foo.app"
    ∧ (caskA ∈ successfulRecords resultsW
        ∧ "Foo.app" ∈ extract_app_names_from_cask caskA) :=
  ⟨(first_writer_wins resultsW "Foo.app").1,
   (first_writer_wins resultsW "Foo.app").2 caskA (by decide)⟩

/-- C3: for non-empty version strings whose cleaning step yields cleaned
strings, the comparator is exactly: dot-split, int-or-string parse,
right-pad with integer zero, Python lexicographic strict-less; and the three
cited examples evaluate as claimed. -/
theorem compare_versions_algorithm :
    (∀ (a b : String) (ca cb : List Char), a ≠ "" → b ≠ "" →
        cleanVersion a.toList = some ca → cleanVersion b.toList = some cb →
        compare_versions a b
          = Except.ok (pyListLt (padZeros (parse_version ca) (parse_version cb))
                                (padZeros (parse_version cb) (parse_version ca))))
    ∧ compare_versions "1.2.0" "1.2.1" = Except.ok (some true)
    ∧ compare_versions "2.0" "1.9.9" = Except.ok (some false)
    ∧ compare_versions "1.2" "1.2.0" = Except.ok (some false) := by
  refine ⟨?_, by decide, by decide, by decide⟩
  intro a b ca cb ha hb hca hcb
  have hca1 : cleanVersion a.data = some ca := hca
  have hcb1 : cleanVersion b.data = some cb := hcb
  simp [compare_versions, ha, hb, hca1, hcb1]

/-- Witness for C3's quantified part at `("1.2.0", "1.2.1")`. -/
theorem compare_versions_algorithm_witness :
    compare_versions "1.2.0" "1.2.1"
      = Except.ok (pyListLt
          (padZeros (parse_version "1.2.0".toList) (parse_version "1.2.1".toList))
          (padZeros (parse_version "1.2.1".toList) (parse_version "1.2.0".toList))) :=
  compare_versions_algorithm.1 "1.2.0" "1.2.1" "1.2.0".toList "1.2.1".toList
    (by decide) (by decide) rfl rfl

/-- C4 counterexample: the cleaning step does not consider only the
substring before the first whitespace character. `"1.0\t9"` contains a tab
but no space, so the code leaves it untouched (the guard tests `' ' in s`),
whereas the substring before its first whitespace is `"1.0"`; observably,
`compare("1.0\t9", "1.1")` is `None` while cleaning to `"1.0"` would give
`True`. -/
theorem cleaning_not_first_whitespace :
    cleanVersion "1.0\t9".toList = some "1.0\t9".toList
    ∧ "1.0\t9".toList.takeWhile (fun c => !isPyWs c) = "1.0".toList
    ∧ "1.0\t9".toList ≠ "1.0".toList
    ∧ compare_versions "1.0\t9" "1.1" = Except.ok none
    ∧ compare_versions "1.0" "1.1" = Except.ok (some true) := by
  exact ⟨rfl, rfl, by decide, rfl, rfl⟩

/-- C4 amended: the cleaning step runs only when the string contains a space
character; when it runs on a string beginning with a non-whitespace
character, it keeps exactly the substring before the first whitespace
character; in particular the cited example compares as claimed. -/
theorem cleaning_space_chunk :
    (∀ (c : Char) (t : List Char), isPyWs c = false → ' ' ∈ c :: t →
        cleanVersion (c :: t) = some ((c :: t).takeWhile (fun d => !isPyWs d)))
    ∧ (∀ s : List Char, ' ' ∉ s → cleanVersion s = some s)
    ∧ compare_versions "2.5.1 release (770)" "2.5.2 release (771)"
        = Except.ok (some true) := by
  refine ⟨?_, ?_, by decide⟩
  · intro c t hc hmem
    have h1 := splitWsAux_headQ t [c] (by simp)
    simp [cleanVersion, hmem, pySplitWs, splitWsAux, hc, List.takeWhile_cons, h1]
  · intro s hs
    simp [cleanVersion, hs]

/-- Witness for C4's amended cleaning property on a concrete string. -/
theorem cleaning_space_chunk_witness :
    cleanVersion ('2' :: ".5.1 x".toList)
      = some (('2' :: ".5.1 x".toList).takeWhile (fun d => !isPyWs d)) :=
  cleaning_space_chunk.1 '2' ".5.1 x".toList (by decide) (by decide)

/-- C5: the detail fetcher returns `None` on timeout, on any other raised
fault, on a malformed JSON body, on a non-zero exit, and on an absent or
empty `casks` list; it returns a record exactly when the call exits `0` with
a parseable body whose `casks` list is non-empty, and then it returns that
list's first element. -/
theorem get_cask_info_contract :
    get_cask_info FetchOutcome.timeout = none
    ∧ get_cask_info FetchOutcome.fault = none
    ∧ (∀ rc : Int, get_cask_info (FetchOutcome.completed rc none) = none)
    ∧ (∀ (rc : Int) (body : Option BrewInfoData), rc ≠ 0 →
        get_cask_info (FetchOutcome.completed rc body) = none)
    ∧ (∀ data : BrewInfoData, data.casks = none →
        get_cask_info (FetchOutcome.completed 0 (some data)) = none)
    ∧ (∀ data : BrewInfoData, data.casks = some [] →
        get_cask_info (FetchOutcome.completed 0 (some data)) = none)
    ∧ (∀ (o : FetchOutcome) (c : CaskRecord),
        get_cask_info o = some c
          ↔ ∃ (data : BrewInfoData) (tl : List CaskRecord),
              o = FetchOutcome.completed 0 (some data)
              ∧ data.casks = some (c :: tl)) := by
  refine ⟨rfl, rfl, ?_, ?_, ?_, ?_, ?_⟩
  · intro rc
    by_cases h : rc = 0 <;> simp [get_cask_info, get_cask_info_try, h]
  · intro rc body h
    simp [get_cask_info, get_cask_info_try, h]
  · intro data h
    simp [get_cask_info, get_cask_info_try, h]
  · intro data h
    simp [get_cask_info, get_cask_info_try, h]
  · intro o c
    constructor
    · intro h
      cases o with
      | timeout => simp [get_cask_info, get_cask_info_try] at h
      | fault => simp [get_cask_info, get_cask_info_try] at h
      | completed rc body =>
        by_cases hrc : rc = 0
        · subst hrc
          cases body with
          | none => simp [get_cask_info, get_cask_info_try] at h
          | some data =>
            cases hcasks : data.casks with
            | none => simp [get_cask_info, get_cask_info_try, hcasks] at h
            | some l =>
              cases l with
              | nil => simp [get_cask_info, get_cask_info_try, hcasks] at h
              | cons c1 tl =>
                have hc : c1 = c := by
                  simpa [get_cask_info, get_cask_info_try, hcasks] using h
                subst hc
                exact ⟨data, tl, rfl, hcasks⟩
        · simp [get_cask_info, get_cask_info_try, hrc] at h
    · rintro ⟨data, tl, rfl, hcasks⟩
      simp [get_cask_info, get_cask_info_try, hcasks]

/-- Witness for C5: a non-zero exit yields `None`; a successful exit with a
non-empty `casks` list yields its first element. -/
theorem get_cask_info_contract_witness :
    get_cask_info (FetchOutcome.completed 1 (some ⟨some [caskA]⟩)) = none
    ∧ get_cask_info (FetchOutcome.completed 0 (some ⟨some [caskA]⟩)) = some caskA :=
  ⟨get_cask_info_contract.2.2.2.1 1 (some ⟨some [caskA]⟩) (by decide),
   (get_cask_info_contract.2.2.2.2.2.2
      (FetchOutcome.completed 0 (some ⟨some [caskA]⟩)) caskA).2
     ⟨⟨some [caskA]⟩, [], rfl, rfl⟩⟩

/-- C6: every key of the built index comes from a successfully fetched
record, the index size is at most the total app-name count over successful
fetches, and a raised task leaves the processing of all other results
unchanged (faults are absorbed at the task boundary). -/
theorem indexer_fault_tolerance :
    ∀ results : List FetchResult,
      (∀ k : String, (lookupName (build_cask_database results) k).isSome →
          ∃ c, c ∈ successfulRecords results ∧ k ∈ extract_app_names_from_cask c)
      ∧ (build_cask_database results).length ≤ totalAppNames results
      ∧ (∀ (pre post : List FetchResult),
          build_cask_database (pre ++ Except.error () :: post)
            = build_cask_database (pre ++ post)) := by
  intro results
  refine ⟨?_, ?_, ?_⟩
  · intro k hk
    have h1 : lookupName (build_cask_database results) k = firstDeclaring results k :=
      buildFold_lookup results [] k
    rw [h1] at hk
    cases hfd : firstDeclaring results k with
    | none => rw [hfd] at hk; simp at hk
    | some c => exact ⟨c, firstDeclaring_mem hfd⟩
  · simpa [build_cask_database] using buildFold_length results []
  · intro pre post
    unfold build_cask_database
    rw [List.foldl_append, List.foldl_append, List.foldl_cons]
    rfl

/-- Witness for C6 on the fixture list: `Bar.app` is in the index, so it
comes from a successful record. -/
theorem indexer_fault_tolerance_witness :
    ∃ c, c ∈ successfulRecords resultsW
      ∧ "Bar.app" ∈ extract_app_names_from_cask c :=
  (indexer_fault_tolerance resultsW).1 "Bar.app" (by decide)

/-- C7 counterexample: the matcher is not total over all inputs — for an
installed app whose name IS a key (so the claim demands exactly one emitted
record), a version string of `" "` makes the comparator raise and the
exception propagates out of the matcher loop, so no record list is
produced. -/
theorem matcher_not_total :
    lookupName [("Foo.app", caskA)] "Foo.app" = some caskA
    ∧ match_apps_to_casks [appBad] [("Foo.app", caskA)] = Except.error () := by
  exact ⟨rfl, rfl⟩

/-- C7 amended: whenever every matched pair's version comparison completes
without an escaping exception, the matcher emits no record for apps absent
from the index, exactly one record per present app, in input order, and at
most one record per installed app. -/
theorem matcher_emits_exactly_keyed_apps :
    ∀ (apps : List InstalledApp) (db : List (String × CaskRecord)),
      (∀ app ∈ apps, exceptIsOk (compareForApp db app) = true) →
      ∃ rs, match_apps_to_casks apps db = Except.ok rs
        ∧ rs.map (fun r => r.app_name)
            = (apps.filter (fun app => (lookupName db app.name).isSome)).map
                (fun app => app.name)
        ∧ rs.length ≤ apps.length := by
  intro apps db
  induction apps with
  | nil => exact fun _ => ⟨[], rfl, rfl, Nat.le_refl 0⟩
  | cons app rest ih =>
    intro h
    have happ := h app (List.mem_cons_self _ _)
    obtain ⟨rs, hrs, hmap, hlen⟩ := ih (fun a ha => h a (List.mem_cons_of_mem _ ha))
    cases hl : lookupName db app.name with
    | none =>
      refine ⟨rs, ?_, ?_, ?_⟩
      · simpa [match_apps_to_casks, hl] using hrs
      · simp [List.filter_cons, hl, hmap]
      · exact Nat.le_trans hlen (Nat.le_succ _)
    | some cask_data =>
      have hok : exceptIsOk
          (compare_versions app.bundle_short_version cask_data.version) = true := by
        simpa [compareForApp, hl] using happ
      cases hcv : compare_versions app.bundle_short_version cask_data.version with
      | error e => rw [hcv] at hok; simp [exceptIsOk] at hok
      | ok ua =>
        refine ⟨mkMatchRecord app cask_data ua :: rs, ?_, ?_, ?_⟩
        · simp [match_apps_to_casks, hl, hcv, hrs]
        · simp [List.filter_cons, hl, hmap, mkMatchRecord]
        · simpa using Nat.succ_le_succ hlen

/-- Witness for C7's amended statement: one indexed app and one unknown app
produce exactly one record, for the indexed app. -/
theorem matcher_emits_exactly_keyed_apps_witness :
    ∃ rs, match_apps_to_casks [appGood, appUnknown] [("Foo.app", caskA)] = Except.ok rs
      ∧ rs.map (fun r => r.app_name)
          = ([appGood, appUnknown].filter
              (fun app => (lookupName [("Foo.app", caskA)] app.name).isSome)).map
              (fun app => app.name)
      ∧ rs.length ≤ [appGood, appUnknown].length :=
  matcher_emits_exactly_keyed_apps [appGood, appUnknown] [("Foo.app", caskA)] (by decide)

/-- C8 counterexample: the pair `("", "")` is equal (also after cleaning,
which leaves `""` unchanged), yet the comparator returns `None`, not
`False`: the empty-input check precedes everything else. -/
theorem comparator_empty_equal_incomparable :
    cleanVersion "".toList = some "".toList
    ∧ compare_versions "" "" = Except.ok none
    ∧ compare_versions "" "" ≠ Except.ok (some false) := by
  exact ⟨rfl, rfl, by decide⟩

/-- C8 amended: for non-empty version strings whose cleaning completes and
yields the same cleaned string, the comparator returns `False` — it is
reflexive-false on equality after cleaning. -/
theorem comparator_reflexive_false_after_clean :
    ∀ (a b : String) (c : List Char), a ≠ "" → b ≠ "" →
      cleanVersion a.toList = some c → cleanVersion b.toList = some c →
      compare_versions a b = Except.ok (some false) := by
  intro a b c ha hb hca hcb
  have hca1 : cleanVersion a.data = some c := hca
  have hcb1 : cleanVersion b.data = some c := hcb
  simp [compare_versions, ha, hb, hca1, hcb1, padZeros, pyListLt_self]

/-- Witness for C8's amended statement: `"1.0 x"` and `"1.0"` both clean to
`"1.0"` and compare `False`. -/
theorem comparator_reflexive_false_after_clean_witness :
    compare_versions "1.0 x" "1.0" = Except.ok (some false) :=
  comparator_reflexive_false_after_clean "1.0 x" "1.0" "1.0".toList
    (by decide) (by decide) (by decide) (by decide)

/-- C9 counterexample: with a non-empty index and a non-empty app list,
`main` can still fail to return `0`: a matched app with version `" "` makes
the comparator's exception propagate out of `main`. -/
theorem main_not_zero_on_nonempty :
    build_cask_database [Except.ok (some caskA)] ≠ []
    ∧ ([appBad] : List InstalledApp) ≠ []
    ∧ main [Except.ok (some caskA)] [appBad] = Except.error () := by
  exact ⟨by decide, by decide, rfl⟩

/-- C9 amended: `main` returns exit code `1` (with nothing on stdout) when
the built index is empty or the inventory list is empty; when both are
non-empty and the matcher completes normally, it returns exit code `0` with
the match records as the stdout JSON array. -/
theorem main_exit_codes :
    ∀ (results : List FetchResult) (apps : List InstalledApp),
      (build_cask_database results = [] → main results apps = Except.ok (1, none))
      ∧ (build_cask_database results ≠ [] → apps = [] →
          main results apps = Except.ok (1, none))
      ∧ (∀ rs, build_cask_database results ≠ [] → apps ≠ [] →
          match_apps_to_casks apps (build_cask_database results) = Except.ok rs →
          main results apps = Except.ok (0, some rs)) := by
  intro results apps
  refine ⟨?_, ?_, ?_⟩
  · intro h
    simp [main, h]
  · intro h1 h2
    simp [main, h1, h2]
  · intro rs h1 h2 h3
    simp [main, h1, h2, h3]

/-- Witness for C9's amended statement on concrete collaborator outcomes. -/
theorem main_exit_codes_witness :
    main [Except.ok (some caskA)] [appGood]
      = Except.ok (0, some [mkMatchRecord appGood caskA (some true)]) :=
  (main_exit_codes [Except.ok (some caskA)] [appGood]).2.2
    [mkMatchRecord appGood caskA (some true)] (by decide) (by decide) (by decide)

/-- C10: when the cleaned, split, zero-padded part sequences first differ at
a position holding an `int` on one side and a `str` on the other, the
comparison raises `TypeError` inside the `try` block and the comparator
returns `None`. -/
theorem comparator_mixed_first_diff_incomparable :
    ∀ (a b : String) (ca cb : List Char), a ≠ "" → b ≠ "" →
      cleanVersion a.toList = some ca → cleanVersion b.toList = some cb →
      mixedAtFirstDiff (padZeros (parse_version ca) (parse_version cb))
                       (padZeros (parse_version cb) (parse_version ca)) = true →
      compare_versions a b = Except.ok none := by
  intro a b ca cb ha hb hca hcb hmix
  have hca1 : cleanVersion a.data = some ca := hca
  have hcb1 : cleanVersion b.data = some cb := hcb
  simp [compare_versions, ha, hb, hca1, hcb1, mixedAtFirstDiff_pyListLt hmix]

/-- Witness for C10 at `("1.a", "1.2")`: the second parts are `str "a"` and
`int 2`. -/
theorem comparator_mixed_first_diff_incomparable_witness :
    compare_versions "1.a" "1.2" = Except.ok none :=
  comparator_mixed_first_diff_incomparable "1.a" "1.2" "1.a".toList "1.2".toList
    (by decide) (by decide) rfl rfl (by decide)

end CaskUpdates

